import Mathlib

/-!
Shallow embedding of the SpotAI repository's core pipeline pieces:
the bounded frame channel (a `queue.Queue(maxsize=C)` written to with
`if not frame_queue.full(): frame_queue.put(...)`), the camera worker
loop of `app_improved.py` / `app_fixed.py`, the detection summary of
`detector_improved.py`, the module-level detector singleton, and the
frame-size optimizer of `utils_improved.py`.
-/

namespace SpotAI

/-! ## Bounded frame channel

`camera_worker` / `camera_stream` push with
`if not frame_queue.full(): frame_queue.put(x)` on a
`queue.Queue(maxsize=C)`; the channel is modelled as the list of queued
packets, oldest first. A push on a full channel leaves the channel
unchanged (newest packet discarded). -/

def chanPush (C : ℕ) (q : List ℕ) (x : ℕ) : List ℕ :=
  if q.length < C then q ++ [x] else q

/-- One channel operation: a producer push or a consumer
`frame_queue.get(timeout=1.0)`. -/
inductive ChanOp
  | push (x : ℕ)
  | pop
deriving DecidableEq

/-- State: (queue contents, packets delivered so far). A pop on an empty
queue is the `queue.Empty` timeout: nothing is delivered. -/
def chanStep (C : ℕ) (s : List ℕ × List ℕ) (op : ChanOp) : List ℕ × List ℕ :=
  match op with
  | .push x => (chanPush C s.1 x, s.2)
  | .pop =>
    match s.1 with
    | [] => (s.1, s.2)
    | y :: rest => (rest, s.2 ++ [y])

def chanRun (C : ℕ) (ops : List ChanOp) : List ℕ × List ℕ :=
  List.foldl (chanStep C) ([], []) ops

/-- The sequence of packets the producer offered, in production order. -/
def producedOf : List ChanOp → List ℕ
  | [] => []
  | .push x :: t => x :: producedOf t
  | .pop :: t => producedOf t

/-! ## Detections and summaries (`detector_improved.py`) -/

structure Detection where
  box : ℤ × ℤ × ℤ × ℤ
  confidence : ℚ
  classId : ℤ
  className : String
deriving DecidableEq

/-- The summary dict: `avgConfidence = none` models the absence of the
`avg_confidence` key. `classes` is the insertion-ordered dict of
per-class counts. -/
structure Summary where
  totalObjects : ℕ
  classes : List (String × ℕ)
  avgConfidence : Option ℚ
deriving DecidableEq

/-- `class_counts[name] = class_counts.get(name, 0) + 1` on an
insertion-ordered dict. -/
def bumpCount : List (String × ℕ) → String → List (String × ℕ)
  | [], k => [(k, 1)]
  | (k', v) :: rest, k =>
    if k' = k then (k', v + 1) :: rest else (k', v) :: bumpCount rest k

/-- `ObjectDetector.get_detection_summary`: empty list gives
`{"total_objects": 0, "classes": {}}` (no `avg_confidence` key); a
non-empty list gives the length, the class counts, and
`np.mean([d['confidence'] for d in detections])`. -/
def get_detection_summary (dets : List Detection) : Summary :=
  if dets.isEmpty then ⟨0, [], none⟩
  else
    ⟨dets.length,
     dets.foldl (fun m d => bumpCount m d.className) [],
     some ((dets.map (fun d => d.confidence)).sum / dets.length)⟩

/-! ## Module-level detector singleton (`get_detector`) -/

structure ObjectDetector where
  model_path : String
  confidence : ℚ
deriving DecidableEq

/-- `get_detector(model_path, confidence)` with the module global
`_detector` passed as explicit state: construct on first call, return
the cached instance on every later call. Returns (result, new state). -/
def get_detector (st : Option ObjectDetector) (model_path : String)
    (confidence : ℚ) : ObjectDetector × Option ObjectDetector :=
  match st with
  | none => (⟨model_path, confidence⟩, some ⟨model_path, confidence⟩)
  | some d => (d, some d)

/-! ## Camera worker loop (`camera_stream` in `app_improved.py`)

A frame is an opaque id (ℕ); `cvt` models `cv2.cvtColor(·, BGR2RGB)`
and `detect` models `detect_objects_detailed`, which either succeeds or
raises. A read is `some frame` or `none` (failed `cap.read()`). -/

inductive DetectOutcome
  | ok (annotated : ℕ) (detections : List Detection) (summary : Summary)
  | exn
deriving DecidableEq

def empty_summary : Summary := ⟨0, [], none⟩

structure ResultPacket where
  frame : ℕ
  detections : List Detection
  summary : Summary
deriving DecidableEq

/-- One loop body on a successfully read frame: on success the annotated
frame is colour-converted and packed with detections and summary; on a
detector exception the raw frame is colour-converted and packed with
`[]` and `{'total_objects': 0, 'classes': {}}`. -/
def camera_stream_step (cvt : ℕ → ℕ) (detect : ℕ → DetectOutcome)
    (frame : ℕ) : ResultPacket :=
  match detect frame with
  | .ok a d s => ⟨cvt a, d, s⟩
  | .exn => ⟨cvt frame, [], empty_summary⟩

/-- The worker loop over the sequence of reads: `if not ret: break`
ends the loop at the first failed read; each successful read produces
one packet offered to the channel. -/
def camera_stream_packets (cvt : ℕ → ℕ) (detect : ℕ → DetectOutcome) :
    List (Option ℕ) → List ResultPacket
  | [] => []
  | none :: _ => []
  | some f :: rest =>
    camera_stream_step cvt detect f :: camera_stream_packets cvt detect rest

/-! ## `app_fixed.py` main camera block (start path) -/

structure AppFixedState where
  camera_running : Bool
  error_shown : Bool
  worker_started : Bool
deriving DecidableEq

/-- The main camera block of `app_fixed.py`: when `camera_running` is
set, test-open the capture; on failure `st.error(...)` is shown and the
block ends; on success the worker thread is started. `can_open` models
`cap_test.isOpened()`. -/
def main_camera_block (can_open : Bool) (s : AppFixedState) : AppFixedState :=
  if s.camera_running then
    if can_open then { s with worker_started := true }
    else { s with error_shown := true }
  else s

/-! ## `optimize_frame_for_detection` (`utils_improved.py`)

A frame is its (height, width). Division by a zero dimension raises
`ZeroDivisionError`, and `cv2.resize` raises `cv2.error` when the
requested `dsize` is empty (either target dimension 0, failing its
`inv_scale_x > 0` assertion since `fx` defaults to 0); both error paths
are modelled as `none`. On success `cv2.resize` returns a frame of the
requested size. `int(...)` on the non-negative products is
`Nat.floor`. -/

/-- The local `scale = min(scale_w, scale_h, 1.0)` with
`scale_w = max_width / width` and `scale_h = max_height / height`. -/
def opt_scale (height width max_width max_height : ℕ) : ℚ :=
  min (min ((max_width : ℚ) / width) ((max_height : ℚ) / height)) 1

def optimize_frame_for_detection (height width max_width max_height : ℕ) :
    Option (ℕ × ℕ) :=
  if height = 0 ∨ width = 0 then none
  else if opt_scale height width max_width max_height < 1 then
    if ⌊(height : ℚ) * opt_scale height width max_width max_height⌋₊ = 0 ∨
        ⌊(width : ℚ) * opt_scale height width max_width max_height⌋₊ = 0 then
      none
    else
      some (⌊(height : ℚ) * opt_scale height width max_width max_height⌋₊,
            ⌊(width : ℚ) * opt_scale height width max_width max_height⌋₊)
  else some (height, width)

/-! ## Helper lemmas -/

/-- Pushing a sequence into a channel with at most `C - q.length` free
slots appends exactly the pushes that fit; all later pushes are dropped. -/
lemma chanPush_foldl_general (C : ℕ) (xs : List ℕ) :
    ∀ q : List ℕ, q.length ≤ C →
      List.foldl (chanPush C) q xs = q ++ xs.take (C - q.length) := by
  induction xs with
  | nil => intro q _; simp
  | cons x t ih =>
    intro q hq
    by_cases hlt : q.length < C
    · have hx : chanPush C q x = q ++ [x] := by simp [chanPush, hlt]
      have hlen : (q ++ [x]).length ≤ C := by
        simpa using hlt
      have hsub : 0 < C - q.length := by omega
      calc List.foldl (chanPush C) q (x :: t)
          = List.foldl (chanPush C) (q ++ [x]) t := by rw [List.foldl_cons, hx]
        _ = (q ++ [x]) ++ t.take (C - (q ++ [x]).length) := ih (q ++ [x]) hlen
        _ = q ++ (x :: t).take (C - q.length) := by
            obtain ⟨k, hk⟩ : ∃ k, C - q.length = k + 1 :=
              ⟨C - q.length - 1, by omega⟩
            have : C - (q ++ [x]).length = k := by
              simp only [List.length_append, List.length_singleton]
              omega
            rw [this, hk, List.take_succ_cons, List.append_assoc,
              List.singleton_append]
    · have hq' : q.length = C := by omega
      have hx : chanPush C q x = q := by simp [chanPush, hlt]
      calc List.foldl (chanPush C) q (x :: t)
          = List.foldl (chanPush C) q t := by rw [List.foldl_cons, hx]
        _ = q ++ t.take (C - q.length) := ih q hq
        _ = q := by simp [hq']
        _ = q ++ (x :: t).take (C - q.length) := by simp [hq']

/-- Bumping one class name raises the sum of the per-class counts by
exactly one. -/
lemma bumpCount_sum (m : List (String × ℕ)) (k : String) :
    ((bumpCount m k).map Prod.snd).sum = (m.map Prod.snd).sum + 1 := by
  induction m with
  | nil => simp [bumpCount]
  | cons p rest ih =>
    obtain ⟨k', v⟩ := p
    by_cases h : k' = k
    · simp [bumpCount, h]
      omega
    · simp [bumpCount, h, ih]
      omega

/-- Folding the class-count accumulation over a detection list raises
the sum of counts by the length of the list. -/
lemma foldl_bumpCount_sum (dets : List Detection) :
    ∀ m : List (String × ℕ),
      (((dets.foldl (fun m d => bumpCount m d.className) m)).map
          Prod.snd).sum = (m.map Prod.snd).sum + dets.length := by
  induction dets with
  | nil => intro m; simp
  | cons d t ih =>
    intro m
    rw [List.foldl_cons, ih (bumpCount m d.className), bumpCount_sum]
    simp
    omega

/-- `chanStep` invariant: the delivered packets followed by the queued
packets always form a sublist of everything offered so far. -/
lemma chanStep_foldl_sublist (C : ℕ) (ops : List ChanOp) :
    ∀ q d : List ℕ,
      ((List.foldl (chanStep C) (q, d) ops).2 ++
          (List.foldl (chanStep C) (q, d) ops).1).Sublist
        ((d ++ q) ++ producedOf ops) := by
  induction ops with
  | nil => intro q d; simp [List.sublist_append_left]
  | cons op t ih =>
    intro q d
    cases op with
    | push x =>
      by_cases hfull : q.length < C
      · have hstep : chanStep C (q, d) (.push x) = (q ++ [x], d) := by
          simp [chanStep, chanPush, hfull]
        rw [List.foldl_cons, hstep]
        have h := ih (q ++ [x]) d
        simpa [producedOf, List.append_assoc] using h
      · have hstep : chanStep C (q, d) (.push x) = (q, d) := by
          simp [chanStep, chanPush, hfull]
        rw [List.foldl_cons, hstep]
        refine (ih q d).trans ?_
        refine List.Sublist.append_left ?_ (d ++ q)
        simp [producedOf]
    | pop =>
      cases q with
      | nil =>
        have hstep : chanStep C (([] : List ℕ), d) .pop = ([], d) := rfl
        rw [List.foldl_cons, hstep]
        simpa [producedOf] using ih [] d
      | cons y rest =>
        have hstep : chanStep C (y :: rest, d) .pop = (rest, d ++ [y]) := rfl
        rw [List.foldl_cons, hstep]
        have h := ih rest (d ++ [y])
        simpa [producedOf, List.append_assoc] using h

/-- When the dimensions already fit the bounds, the scale is clamped to
1 and the frame is returned unresized. -/
lemma optimize_frame_fixed (h w mw mh : ℕ) (hh : 0 < h) (hw : 0 < w)
    (hmh : h ≤ mh) (hmw : w ≤ mw) :
    optimize_frame_for_detection h w mw mh = some (h, w) := by
  have hhQ : (0 : ℚ) < h := by exact_mod_cast hh
  have hwQ : (0 : ℚ) < w := by exact_mod_cast hw
  have h1w : (1 : ℚ) ≤ mw / w := (one_le_div hwQ).mpr (by exact_mod_cast hmw)
  have h1h : (1 : ℚ) ≤ mh / h := (one_le_div hhQ).mpr (by exact_mod_cast hmh)
  have hmin : opt_scale h w mw mh = 1 := by
    unfold opt_scale
    rw [min_eq_right (le_min h1w h1h)]
  rw [optimize_frame_for_detection,
    if_neg (by push_neg; exact ⟨hh.ne', hw.ne'⟩),
    if_neg (by rw [hmin]; exact lt_irrefl 1)]

/-! ## Claim theorems -/

/-- C1 (counterexample): pushing packets 1..8 into an empty capacity-5
channel with no intervening pops leaves [1,2,3,4,5] — the five EARLIEST
packets — not [4,5,6,7,8], the five most recent, as the claim states. -/
theorem chanPush_overflow_keeps_first_not_last :
    List.foldl (chanPush 5) [] [1, 2, 3, 4, 5, 6, 7, 8] = [1, 2, 3, 4, 5] ∧
    List.foldl (chanPush 5) [] [1, 2, 3, 4, 5, 6, 7, 8] ≠ [4, 5, 6, 7, 8] := by
  decide

/-- C1 (amended): for every capacity C, a sequence of pushes into the
empty channel with no intervening pops leaves exactly the C EARLIEST
pushed packets, in production order; in particular with capacity 5 and
8 packets the pops then return packets #1–#5 in order and #6–#8 are
dropped. -/
theorem chanPush_foldl_keeps_first_C :
    (∀ (C : ℕ) (xs : List ℕ), List.foldl (chanPush C) [] xs = xs.take C) ∧
    List.foldl (chanPush 5) [] [1, 2, 3, 4, 5, 6, 7, 8] = [1, 2, 3, 4, 5] := by
  constructor
  · intro C xs
    simpa using chanPush_foldl_general C xs [] (by simp)
  · decide

/-- C2: push never blocks (it is a total state transformer); at
capacity the pushed (newest) packet is discarded and the contents are
unchanged; below capacity the packet is appended. -/
theorem chanPush_full_drops_newest (C : ℕ) (q : List ℕ) (x : ℕ) :
    (q.length = C → chanPush C q x = q) ∧
    (q.length < C → chanPush C q x = q ++ [x]) := by
  constructor
  · intro h
    simp [chanPush, h]
  · intro h
    simp [chanPush, h]

/-- Witness for C2 at capacity 2: a full channel [7,6] is unchanged by
pushing 9; a channel [7] with a free slot receives 9. -/
theorem chanPush_full_drops_newest_witness :
    chanPush 2 [7, 6] 9 = [7, 6] ∧ chanPush 2 [7] 9 = [7, 9] :=
  ⟨(chanPush_full_drops_newest 2 [7, 6] 9).1 (by decide),
   (chanPush_full_drops_newest 2 [7] 9).2 (by decide)⟩

/-- C3: if the detector raises on frame f, the worker offers a
ResultPacket holding the colour-converted raw frame together with the
empty summary {total_objects: 0, classes: {}}, and the loop continues
with the remaining reads rather than stopping. -/
theorem camera_stream_exn_fallback_continues (cvt : ℕ → ℕ)
    (detect : ℕ → DetectOutcome) (f : ℕ) (rest : List (Option ℕ))
    (h : detect f = .exn) :
    camera_stream_packets cvt detect (some f :: rest) =
      ⟨cvt f, [], empty_summary⟩ :: camera_stream_packets cvt detect rest := by
  simp [camera_stream_packets, camera_stream_step, h]

/-- Witness for C3: a detector that always raises, on reads [some 3,
some 4], yields the fallback packet for frame 3 followed by the packets
of the remaining reads. -/
theorem camera_stream_exn_fallback_continues_witness :
    camera_stream_packets Nat.succ (fun _ => DetectOutcome.exn)
        [some 3, some 4] =
      ⟨4, [], empty_summary⟩ ::
        camera_stream_packets Nat.succ (fun _ => DetectOutcome.exn) [some 4] :=
  camera_stream_exn_fallback_continues Nat.succ (fun _ => DetectOutcome.exn)
    3 [some 4] rfl

/-- C6 (counterexample): with reads [some 1, none, some 2], the worker
produces only the packet for frame 1 and the loop ends at the single
failed read: frame 2 is never processed, contradicting "a single failed
read does not end the run" (processing all successful reads would give
two packets). -/
theorem camera_stream_single_failed_read_stops :
    camera_stream_packets id (fun f => .ok f [] empty_summary)
        [some 1, none, some 2] = [⟨1, [], empty_summary⟩] ∧
    camera_stream_packets id (fun f => .ok f [] empty_summary)
        [some 1, some 2] =
      [⟨1, [], empty_summary⟩, ⟨2, [], empty_summary⟩] := by
  constructor <;> rfl

/-- C6 (amended): the worker does NOT retry a failed read: it exits the
streaming loop at the first failed read, processing exactly the frames
read successfully before it. -/
theorem camera_stream_stops_at_first_failed_read (cvt : ℕ → ℕ)
    (detect : ℕ → DetectOutcome) (reads : List (Option ℕ)) :
    camera_stream_packets cvt detect reads =
      ((reads.takeWhile Option.isSome).filterMap id).map
        (camera_stream_step cvt detect) := by
  induction reads with
  | nil => rfl
  | cons r t ih =>
    cases r with
    | none => simp [camera_stream_packets, List.takeWhile]
    | some f =>
      simp [camera_stream_packets, List.takeWhile, ih]

/-- C7 (counterexample): with the running flag set and an address that
cannot be opened, the main camera block of app_fixed.py reports the
connection error and starts no worker, but the running flag REMAINS
set: the state is not returned to Idle. -/
theorem main_camera_block_open_failure_keeps_running_flag :
    main_camera_block false ⟨true, false, false⟩ = ⟨true, true, false⟩ ∧
    (main_camera_block false ⟨true, false, false⟩).camera_running ≠ false := by
  decide

/-- C7 (amended): for every state with the running flag set, an address
that cannot be opened makes the block report a connection error and
start no worker thread, while leaving the running flag set (the state
does not return to Idle). -/
theorem main_camera_block_open_failure_reports_error_no_worker
    (s : AppFixedState) (h : s.camera_running = true) :
    main_camera_block false s = { s with error_shown := true } := by
  simp [main_camera_block, h]

/-- Witness for C7 (amended) at the just-started state. -/
theorem main_camera_block_open_failure_witness :
    main_camera_block false ⟨true, false, false⟩ = ⟨true, true, false⟩ :=
  main_camera_block_open_failure_reports_error_no_worker
    ⟨true, false, false⟩ rfl

/-- C9: the first call to get_detector constructs an ObjectDetector
from its arguments, and every later call returns that identical
instance with the module state unchanged — the arguments of later
calls have no effect. -/
theorem get_detector_singleton (p : String) (c : ℚ) (p' : String) (c' : ℚ) :
    (get_detector none p c).1 = ⟨p, c⟩ ∧
    get_detector (get_detector none p c).2 p' c' = get_detector none p c := by
  constructor <;> rfl

/-- C4: for every detection list, the summary's total equals the length
of the list and the per-class counts sum to the total. -/
theorem get_detection_summary_consistent (dets : List Detection) :
    (get_detection_summary dets).totalObjects = dets.length ∧
    (((get_detection_summary dets).classes.map Prod.snd).sum =
      (get_detection_summary dets).totalObjects) := by
  cases dets with
  | nil => simp [get_detection_summary]
  | cons d t =>
    rw [get_detection_summary, if_neg (by simp)]
    exact ⟨rfl, by simpa using foldl_bumpCount_sum (d :: t) []⟩

/-- C5: the avg_confidence key is absent exactly when the detection
list is empty, and otherwise holds the arithmetic mean (sum divided by
count) of the confidences; in the two-detection scenario with
confidences 0.6 (person) and 0.8 (car) the summary is exactly
{total_objects: 2, classes: {person: 1, car: 1}, avg_confidence: 0.7}. -/
theorem get_detection_summary_avg_confidence :
    (∀ dets : List Detection,
      ((get_detection_summary dets).avgConfidence = none ↔ dets = []) ∧
      (dets ≠ [] → (get_detection_summary dets).avgConfidence =
        some ((dets.map fun d => d.confidence).sum / dets.length))) ∧
    get_detection_summary
        [⟨(0, 0, 0, 0), 0.6, 0, "person"⟩, ⟨(0, 0, 0, 0), 0.8, 2, "car"⟩] =
      ⟨2, [("person", 1), ("car", 1)], some 0.7⟩ := by
  constructor
  · intro dets
    constructor
    · by_cases hd : dets.isEmpty
      · rw [List.isEmpty_iff] at hd
        subst hd
        simp [get_detection_summary]
      · have : dets ≠ [] := by
          simpa [List.isEmpty_iff] using hd
        simp [get_detection_summary, hd, this]
    · intro hne
      have hd : ¬ dets.isEmpty := by simpa [List.isEmpty_iff] using hne
      simp [get_detection_summary, hd]
  · norm_num [get_detection_summary, bumpCount]
    decide

/-- Witness for C5 on a concrete one-element list: the mean of a single
confidence 1/2 is 1/2. -/
theorem get_detection_summary_avg_confidence_witness :
    (get_detection_summary [⟨(0, 0, 0, 0), 1/2, 0, "dog"⟩]).avgConfidence =
      some (([(⟨(0, 0, 0, 0), 1/2, 0, "dog"⟩ : Detection)].map
          fun d => d.confidence).sum /
        ([(⟨(0, 0, 0, 0), 1/2, 0, "dog"⟩ : Detection)].length : ℕ)) :=
  (get_detection_summary_avg_confidence.1
      [⟨(0, 0, 0, 0), 1/2, 0, "dog"⟩]).2 (by simp)

/-- C8 (counterexample): with capacity 1, the trace push 1, push 2
(dropped on full), pop, push 3, pop delivers [1, 3] while the produced
sequence is [1, 2, 3]; [1, 3] is not a suffix of [1, 2, 3], so delivery
is not a suffix of production. -/
theorem chanRun_delivered_not_suffix :
    (chanRun 1 [.push 1, .push 2, .pop, .push 3, .pop]).2 = [1, 3] ∧
    producedOf [.push 1, .push 2, .pop, .push 3, .pop] = [1, 2, 3] ∧
    ¬ [1, 3] <:+ [1, 2, 3] := by
  decide

/-- C8 (amended): for every capacity and operation trace, the sequence
of packets the display side pops is an ordered subsequence (sublist) of
the sequence produced: packets arrive in production order, none is
delivered twice, and the only losses are pushes dropped on a full
channel — but it need not be a suffix. -/
theorem chanRun_delivered_sublist_of_produced (C : ℕ) (ops : List ChanOp) :
    ((chanRun C ops).2).Sublist (producedOf ops) := by
  have h := chanStep_foldl_sublist C ops [] []
  simp only [List.append_nil, List.nil_append] at h
  exact (List.sublist_append_left _ _).trans h

/-- C10 (counterexample): at a 1×1000 frame with the default positive
bounds 640×480, the scaled height truncates to int(1 * 0.64) = 0, so
the very first application raises inside cv2.resize (empty dsize) and
returns no frame at all — refuting the claim, which asserts an output
fitting the bounds (and idempotence of that output) for every input
frame under positive bounds. -/
theorem optimize_frame_fails_at_degenerate :
    optimize_frame_for_detection 1 1000 640 480 = none := by
  norm_num [optimize_frame_for_detection, opt_scale]

/-- C10 (amended): whenever optimize_frame_for_detection returns a
frame (extreme aspect ratios instead make a scaled dimension truncate
to 0 and the resize raise), it never increases either dimension, its
output fits within the bounds, and it is idempotent: a second
application with the same bounds returns the same frame. -/
theorem optimize_frame_bounds_and_idempotent (h w mw mh h' w' : ℕ)
    (hres : optimize_frame_for_detection h w mw mh = some (h', w')) :
    (h' ≤ h ∧ w' ≤ w ∧ h' ≤ mh ∧ w' ≤ mw) ∧
    optimize_frame_for_detection h' w' mw mh = some (h', w') := by
  have hguard : ¬ (h = 0 ∨ w = 0) := by
    intro hor
    rw [optimize_frame_for_detection, if_pos hor] at hres
    exact Option.noConfusion hres
  push_neg at hguard
  obtain ⟨hh0, hw0⟩ := hguard
  have hh : 0 < h := Nat.pos_of_ne_zero hh0
  have hw : 0 < w := Nat.pos_of_ne_zero hw0
  have hhQ : (0 : ℚ) < h := by exact_mod_cast hh
  have hwQ : (0 : ℚ) < w := by exact_mod_cast hw
  have hs1 : opt_scale h w mw mh ≤ 1 := min_le_right _ _
  have hs_sw : opt_scale h w mw mh ≤ (mw : ℚ) / w :=
    le_trans (min_le_left _ _) (min_le_left _ _)
  have hs_sh : opt_scale h w mw mh ≤ (mh : ℚ) / h :=
    le_trans (min_le_left _ _) (min_le_right _ _)
  rw [optimize_frame_for_detection,
    if_neg (by push_neg; exact ⟨hh0, hw0⟩)] at hres
  by_cases hlt : opt_scale h w mw mh < 1
  · rw [if_pos hlt] at hres
    by_cases hz : ⌊(h : ℚ) * opt_scale h w mw mh⌋₊ = 0 ∨
        ⌊(w : ℚ) * opt_scale h w mw mh⌋₊ = 0
    · rw [if_pos hz] at hres
      exact absurd hres (by simp)
    rw [if_neg hz] at hres
    push_neg at hz
    obtain ⟨hz_h, hz_w⟩ := hz
    have hp := Option.some.inj hres
    rw [Prod.mk.injEq] at hp
    obtain ⟨hph, hpw⟩ := hp
    have hpos_h : 0 < h' := by
      rw [← hph]
      exact Nat.pos_of_ne_zero hz_h
    have hpos_w : 0 < w' := by
      rw [← hpw]
      exact Nat.pos_of_ne_zero hz_w
    have hbound_h : h' ≤ h := by
      rw [← hph]
      calc ⌊(h : ℚ) * opt_scale h w mw mh⌋₊
          ≤ ⌊((h : ℕ) : ℚ)⌋₊ :=
            Nat.floor_le_floor (mul_le_of_le_one_right (le_of_lt hhQ) hs1)
        _ = h := Nat.floor_natCast h
    have hbound_w : w' ≤ w := by
      rw [← hpw]
      calc ⌊(w : ℚ) * opt_scale h w mw mh⌋₊
          ≤ ⌊((w : ℕ) : ℚ)⌋₊ :=
            Nat.floor_le_floor (mul_le_of_le_one_right (le_of_lt hwQ) hs1)
        _ = w := Nat.floor_natCast w
    have hfit_h : h' ≤ mh := by
      rw [← hph]
      have hdiv : (h : ℚ) * ((mh : ℚ) / h) = mh := by
        field_simp
      calc ⌊(h : ℚ) * opt_scale h w mw mh⌋₊
          ≤ ⌊((mh : ℕ) : ℚ)⌋₊ := by
            refine Nat.floor_le_floor ?_
            rw [← hdiv]
            exact mul_le_mul_of_nonneg_left hs_sh (le_of_lt hhQ)
        _ = mh := Nat.floor_natCast mh
    have hfit_w : w' ≤ mw := by
      rw [← hpw]
      have hdiv : (w : ℚ) * ((mw : ℚ) / w) = mw := by
        field_simp
      calc ⌊(w : ℚ) * opt_scale h w mw mh⌋₊
          ≤ ⌊((mw : ℕ) : ℚ)⌋₊ := by
            refine Nat.floor_le_floor ?_
            rw [← hdiv]
            exact mul_le_mul_of_nonneg_left hs_sw (le_of_lt hwQ)
        _ = mw := Nat.floor_natCast mw
    exact ⟨⟨hbound_h, hbound_w, hfit_h, hfit_w⟩,
      optimize_frame_fixed h' w' mw mh hpos_h hpos_w hfit_h hfit_w⟩
  · rw [if_neg hlt] at hres
    have hp := Option.some.inj hres
    rw [Prod.mk.injEq] at hp
    obtain ⟨hph, hpw⟩ := hp
    have hpos_h : 0 < h' := hph ▸ hh
    have hpos_w : 0 < w' := hpw ▸ hw
    have hone : (1 : ℚ) ≤ opt_scale h w mw mh := not_lt.mp hlt
    have hfit_h : h' ≤ mh := by
      have : (h : ℚ) ≤ mh := (one_le_div hhQ).mp (le_trans hone hs_sh)
      rw [← hph]
      exact_mod_cast this
    have hfit_w : w' ≤ mw := by
      have : (w : ℚ) ≤ mw := (one_le_div hwQ).mp (le_trans hone hs_sw)
      rw [← hpw]
      exact_mod_cast this
    exact ⟨⟨le_of_eq hph.symm, le_of_eq hpw.symm, hfit_h, hfit_w⟩,
      optimize_frame_fixed h' w' mw mh hpos_h hpos_w hfit_h hfit_w⟩

/-- Witness for C10 (amended): a 960×1280 frame scales to 480×640 under
bounds 640×480, and a second application leaves it unchanged. -/
theorem optimize_frame_bounds_and_idempotent_witness :
    optimize_frame_for_detection 960 1280 640 480 = some (480, 640) ∧
    optimize_frame_for_detection 480 640 640 480 = some (480, 640) := by
  have hres : optimize_frame_for_detection 960 1280 640 480 =
      some (480, 640) := by
    norm_num [optimize_frame_for_detection, opt_scale]
  exact ⟨hres,
    (optimize_frame_bounds_and_idempotent 960 1280 640 480 480 640 hres).2⟩

end SpotAI
